import Mathlib

/-!
Shallow embedding of the Swarm streamer protocol core
(`swarm/network/streamer.go`) and proofs about its behaviour.

Conventions: Go byte strings (`[]byte`, `string`) are `List Nat`;
Go `uint64` values are `Nat` (no arithmetic in the embedded code can
overflow 64 bits on the inputs considered); a Go function that can
panic is embedded as an `Option`/`Except`-returning function with
`none`/`error` marking the panic; fallible operations return `Except
String`.  Maps are association lists looked up from the front.
-/

namespace Streamer

/-- Constants from the `const` block of streamer.go.  Note `HashSize`
occupies iota position 0, so `Low = 1`, ..., `Top = 4`. -/
def HashSize : Nat := 32

def Low : Nat := 1
def Mid : Nat := 2
def High : Nat := 3
def Top : Nat := 4
def PriorityQueueLevels : Nat := 5
def PriorityQueueCap : Nat := 3

/-- Modelled from the spec: the bitvector component
(`swarm/network/bitvector`) is repository code not under `src/`.
Spec §4.1: `new(n_bits)` yields an all-zero fixed-length bit array. -/
def bvNew (n : Nat) : List Bool := List.replicate n false

/-- Modelled from the spec: bitvector `set(i, v)` (§4.1); bit `i` lives
in byte `i/8`, so an index outside the allocated bits is a panic,
embedded as `none`. -/
def bvSet (b : List Bool) (i : Nat) (v : Bool) : Option (List Bool) :=
  if i < b.length then some (b.set i v) else none

/-- Modelled from the spec: bitvector `get(i)` (§4.1). -/
def bvGet (b : List Bool) (i : Nat) : Bool := b.getD i false

/-- Modelled from the spec: bitvector `from_bytes(buf, n_bits)` (§4.1):
requires `len(buf) = ceil(n_bits/8)`; bit `i` is byte `i/8`, position
`i%8`, least-significant first. -/
def bvNewFromBytes (buf : List Nat) (n : Nat) : Option (List Bool) :=
  if buf.length = (n + 7) / 8 then
    some ((List.range n).map (fun i => Nat.testBit (buf.getD (i / 8) 0) (i % 8)))
  else
    none

/-- The 32-byte slice `hashes[off : off+HashSize]`. -/
def hashSlice (hashes : List Nat) (off : Nat) : List Nat :=
  (hashes.drop off).take HashSize

/-- The offer loop of `handleUnsyncedKeysMsg` (streamer.go 509-520),
exactly as written: the index starts at 0, is bounded by
`len(hashes)/HashSize`, and steps by `HashSize`; the hash is the byte
slice `hashes[i:i+HashSize]`; when `NeedData` returns a wait function
the bit at index `i` is set and a waiter is registered.  `needData h =
true` embeds "NeedData returned a non-nil wait function".  Returns the
want bitvector, the hashes consulted in order, and the waiter count. -/
def unsyncedKeysLoop (needData : List Nat → Bool) (hashes : List Nat)
    (i : Nat) (want : List Bool) (consulted : List (List Nat)) (waiters : Nat) :
    Option (List Bool × List (List Nat) × Nat) :=
  if _h : i < hashes.length / HashSize then
    let hash := hashSlice hashes i
    if needData hash then
      match bvSet want i true with
      | none => none
      | some w =>
          unsyncedKeysLoop needData hashes (i + HashSize) w
            (consulted ++ [hash]) (waiters + 1)
    else
      unsyncedKeysLoop needData hashes (i + HashSize) want consulted waiters
  else
    some (want, consulted, waiters)
termination_by hashes.length / HashSize - i
decreasing_by
  all_goals
    simp only [HashSize] at *
    omega

/-- The want-computation phase of `handleUnsyncedKeysMsg` (streamer.go
504-520): build a bitvector of width `len(hashes)/HashSize` and run the
offer loop from index 0. -/
def handleUnsyncedKeysWant (needData : List Nat → Bool) (hashes : List Nat) :
    Option (List Bool × List (List Nat) × Nat) :=
  unsyncedKeysLoop needData hashes 0 (bvNew (hashes.length / HashSize)) [] 0

/-- Embeds `incomingStreamer.nextBatch` (streamer.go 418-444), exactly as
written: the local variable `intervals` is a fresh nil slice (the
persistent intervals are commented out in the source), so every branch
below sees `intervals = []`.  A write or read through an out-of-range
slice index is a Go panic, embedded as `none`. -/
def nextBatch (live : Bool) (sessionAt fromv : Nat) : Option (Nat × Nat) :=
  let intervals : List Nat := []
  if live then
    -- intervals = [sessionAt, from] (the len==0 arm); nextFrom = from;
    -- nextTo keeps its zero value
    some (fromv, 0)
  else if fromv ≥ sessionAt then
    -- history sync complete: intervals = nil; both results keep zero
    some (0, 0)
  else if intervals.length > 2 ∧ fromv ≥ intervals.getD 2 0 then
    -- gap filled: intervals = append(intervals[:1], intervals[3:]...)
    let intervals' := intervals.take 1 ++ intervals.drop 3
    match intervals'.get? 1 with
    | none => none
    | some nf =>
        if intervals'.length > 2 then
          match intervals'.get? 2 with
          | none => none
          | some nt => some (nf, nt)
        else
          some (nf, sessionAt)
  else
    -- nextFrom = from; intervals[1] = from  -- index 1 of the empty
    -- local slice: out-of-range write, i.e. a panic
    if 1 < intervals.length then some (fromv, sessionAt) else none


/-- C1: evaluation of the offer loop at a batch of two offered hashes
(`h₁ = 32×0x00`, `h₂ = 32×0x01`) with `NeedData` returning a wait
function for every hash.  Because the loop index is bounded by the hash
count `2` but steps by `HashSize = 32`, only `h₁` is consulted, one
waiter is registered, and only bit 0 is set — the claim would require
both hashes consulted and bits 0 and 1 set. -/
theorem unsyncedKeys_offer_loop_skips_hashes :
    handleUnsyncedKeysWant (fun _ => true)
      (List.replicate 32 0 ++ List.replicate 32 1) =
      some ([true, false], [List.replicate 32 0], 1) := by
  simp +decide [handleUnsyncedKeysWant, unsyncedKeysLoop.eq_def,
    hashSlice, bvNew, bvSet, HashSize]

/-- C4: evaluation of `nextBatch` for a historical (non-live) stream
with `sessionAt = 1000` whose handled batch ends at `from = 400 <
sessionAt`: the source writes `intervals[1]` on the empty local
`intervals` slice, an out-of-range index, i.e. a panic (embedded as
`none`) — the claim would require a defined gap pair. -/
theorem nextBatch_panics_on_historical_gap :
    nextBatch false 1000 400 = none := by decide

/-! ### The shared per-stream next channel (streamer.go 394-415, 498-556)

`setIncomingStreamer` creates the stream's `next` channel with
capacity 1 and pre-signals one token so the first offered batch can be
answered at once (streamer.go 400, 413).  Every handled
`UnsyncedKeysMsg` then spawns a completion goroutine that, only after
all of its own batch's waiters have resolved and `BatchDone` (with its
finalizer) has run, sends one token into that same channel (521-531),
and a gate goroutine that consumes one token from it — or commits to
quit — before enqueuing its `WantedKeysMsg` (547-554).  The channel is
shared: the machine below models it with token provenance, stamping
each token with its producer. -/

inductive TokenSrc where
  | preSignal : TokenSrc
  | fromBatch : Nat → TokenSrc
deriving DecidableEq, Repr

/-- State of one handled batch: its unresolved waiters, whether its
`BatchDone` call (finalizer included) has completed, whether its
completion token has been sent on the channel, the token its gate
consumed to send the `WantedKeysMsg` (`none` while unsent), and
whether its gate took the quit arm. -/
structure BatchSt where
  waitersRem : Nat
  doneRun : Bool
  produced : Bool
  sentVia : Option TokenSrc
  dropped : Bool
deriving DecidableEq, Repr

/-- The shared channel state: the handled batches, the channel content
(capacity 1, with provenance), and the quit flag. -/
structure NextChanSt where
  batches : List BatchSt
  chan : Option TokenSrc
  quit : Bool
deriving DecidableEq, Repr

/-- Initial state for a list of handled batches given by their waiter
counts: the channel holds the registration pre-signal token
(streamer.go 413) and no batch has completed, produced, sent or
dropped. -/
def initNextChan (ws : List Nat) : NextChanSt :=
  { batches := ws.map (fun w => ⟨w, false, false, none, false⟩),
    chan := some TokenSrc.preSignal,
    quit := false }

/-- Interleaved small steps of the completion goroutines (resolve a
waiter; run `BatchDone` once all waiters resolved; send the completion
token when the channel has room, streamer.go 521-531), the gate
goroutines (consume a token and send, or commit to quit and drop,
547-554), and the environment firing quit. -/
inductive NextStep : NextChanSt → NextChanSt → Prop where
  | resolveWaiter (s : NextChanSt) (b : Nat) (st : BatchSt) (n : Nat) :
      s.batches.get? b = some st → st.waitersRem = n + 1 →
      NextStep s { s with batches := s.batches.set b { st with waitersRem := n } }
  | runBatchDone (s : NextChanSt) (b : Nat) (st : BatchSt) :
      s.batches.get? b = some st → st.waitersRem = 0 → st.doneRun = false →
      NextStep s { s with batches := s.batches.set b { st with doneRun := true } }
  | produceToken (s : NextChanSt) (b : Nat) (st : BatchSt) :
      s.batches.get? b = some st → st.doneRun = true → st.produced = false →
      s.chan = none →
      NextStep s { s with
        batches := s.batches.set b { st with produced := true },
        chan := some (TokenSrc.fromBatch b) }
  | takeToken (s : NextChanSt) (b : Nat) (st : BatchSt) (src : TokenSrc) :
      s.batches.get? b = some st → st.sentVia = none → st.dropped = false →
      s.chan = some src →
      NextStep s { s with
        batches := s.batches.set b { st with sentVia := some src },
        chan := none }
  | takeQuit (s : NextChanSt) (b : Nat) (st : BatchSt) :
      s.batches.get? b = some st → st.sentVia = none → st.dropped = false →
      s.quit = true →
      NextStep s { s with batches := s.batches.set b { st with dropped := true } }
  | fireQuit (s : NextChanSt) :
      NextStep s { s with quit := true }

/-- Reflexive-transitive closure of `NextStep`. -/
inductive NextReachable : NextChanSt → NextChanSt → Prop where
  | refl (s : NextChanSt) : NextReachable s s
  | tail {a b c : NextChanSt} :
      NextReachable a b → NextStep b c → NextReachable a c

/-- The machine's inductive invariant: completion is monotone
(`doneRun` forces all waiters resolved, `produced` forces `doneRun`);
every token — in flight or consumed — stamped `fromBatch c` was
produced by batch `c` after it completed; a token in flight has not
also been consumed; distinct gates consumed distinct tokens; a dropped
gate never sent. -/
def NextChanInv (s : NextChanSt) : Prop :=
  (∀ b st, s.batches.get? b = some st → st.doneRun = true →
    st.waitersRem = 0) ∧
  (∀ b st, s.batches.get? b = some st → st.produced = true →
    st.doneRun = true) ∧
  (∀ b st c, s.batches.get? b = some st →
    st.sentVia = some (TokenSrc.fromBatch c) →
    ∃ stc, s.batches.get? c = some stc ∧ stc.produced = true) ∧
  (∀ c, s.chan = some (TokenSrc.fromBatch c) →
    ∃ stc, s.batches.get? c = some stc ∧ stc.produced = true) ∧
  (∀ src b st, s.chan = some src → s.batches.get? b = some st →
    st.sentVia ≠ some src) ∧
  (∀ b c stb stc src, s.batches.get? b = some stb →
    s.batches.get? c = some stc →
    stb.sentVia = some src → stc.sentVia = some src → b = c) ∧
  (∀ b st, s.batches.get? b = some st → st.dropped = true →
    st.sentVia = none)

theorem get?_set_of_get? {α : Type} {l : List α} {b : Nat} {st : α} (a : α)
    (hb : l.get? b = some st) (b' : Nat) :
    (l.set b a).get? b' = if b = b' then some a else l.get? b' := by
  rw [List.get?_set]
  by_cases hbb : b = b'
  · subst hbb
    rw [if_pos rfl, if_pos rfl, hb]
    rfl
  · rw [if_neg hbb, if_neg hbb]

theorem initNextChan_inv (ws : List Nat) : NextChanInv (initNextChan ws) := by
  have hfields : ∀ b st, (initNextChan ws).batches.get? b = some st →
      st.doneRun = false ∧ st.produced = false ∧ st.sentVia = none ∧
        st.dropped = false := by
    intro b st hb
    simp only [initNextChan, List.get?_map] at hb
    cases hws : ws.get? b with
    | none => rw [hws] at hb; simp at hb
    | some w =>
      rw [hws] at hb
      simp only [Option.map_some'] at hb
      injection hb with hb
      rw [← hb]
      exact ⟨rfl, rfl, rfl, rfl⟩
  refine ⟨?_, ?_, ?_, ?_, ?_, ?_, ?_⟩
  · intro b st hb hdone
    exact absurd hdone (by simp [(hfields b st hb).1])
  · intro b st hb hprod
    exact absurd hprod (by simp [(hfields b st hb).2.1])
  · intro b st c hb hs
    exact absurd hs (by simp [(hfields b st hb).2.2.1])
  · intro c hc
    exact absurd hc (by simp [initNextChan])
  · intro src b st _ hb
    simp [(hfields b st hb).2.2.1]
  · intro b c stb stc src hb hc hsb hsc
    exact absurd hsb (by simp [(hfields b stb hb).2.2.1])
  · intro b st hb _
    exact (hfields b st hb).2.2.1


theorem upd_entry {b b' : Nat} {newSt st' : BatchSt} {l : List BatchSt}
    (hupd : ∀ x, (l.set b newSt).get? x =
      if b = x then some newSt else l.get? x)
    (hb' : (l.set b newSt).get? b' = some st') :
    (b = b' ∧ st' = newSt) ∨ (b ≠ b' ∧ l.get? b' = some st') := by
  rw [hupd b'] at hb'
  by_cases hbb : b = b'
  · rw [if_pos hbb] at hb'
    injection hb' with hb'
    exact Or.inl ⟨hbb, hb'.symm⟩
  · rw [if_neg hbb] at hb'
    exact Or.inr ⟨hbb, hb'⟩

theorem inv_preserve_resolve {s : NextChanSt} {b : Nat} {st : BatchSt} {n : Nat}
    (hinv : NextChanInv s) (hb : s.batches.get? b = some st)
    (hw : st.waitersRem = n + 1) :
    NextChanInv
      { s with batches := s.batches.set b { st with waitersRem := n } } := by
  obtain ⟨I1, I2, I3, I4, I5, I6, I7⟩ := hinv
  have hupd := get?_set_of_get? { st with waitersRem := n } hb
  have hOld : ∀ x stx,
      (s.batches.set b { st with waitersRem := n }).get? x = some stx →
      ∃ sty, s.batches.get? x = some sty ∧ sty.doneRun = stx.doneRun ∧
        sty.produced = stx.produced ∧ sty.sentVia = stx.sentVia ∧
        sty.dropped = stx.dropped := by
    intro x stx hx
    rcases upd_entry hupd hx with ⟨hbb, rfl⟩ | ⟨hbb, hx⟩
    · exact ⟨st, hbb ▸ hb, rfl, rfl, rfl, rfl⟩
    · exact ⟨stx, hx, rfl, rfl, rfl, rfl⟩
  have hNewProd : ∀ c stc, s.batches.get? c = some stc → stc.produced = true →
      ∃ stc', (s.batches.set b { st with waitersRem := n }).get? c = some stc' ∧
        stc'.produced = true := by
    intro c stc hc hpc
    by_cases hbc : b = c
    · refine ⟨{ st with waitersRem := n }, by rw [hupd c, if_pos hbc], ?_⟩
      have hstc : st = stc := by
        rw [← hbc, hb] at hc
        injection hc
      show st.produced = true
      rw [hstc]
      exact hpc
    · exact ⟨stc, by rw [hupd c, if_neg hbc]; exact hc, hpc⟩
  refine ⟨?_, ?_, ?_, ?_, ?_, ?_, ?_⟩
  · intro b' st' hb' hdone
    rcases upd_entry hupd hb' with ⟨hbb, rfl⟩ | ⟨hbb, hb'⟩
    · have h0 := I1 b st hb hdone
      exfalso
      omega
    · exact I1 b' st' hb' hdone
  · intro b' st' hb' hprod
    obtain ⟨sty, hy, hd, hp, _, _⟩ := hOld b' st' hb'
    rw [← hd]
    exact I2 b' sty hy (hp.trans hprod)
  · intro b' st' c hb' hs
    obtain ⟨sty, hy, _, _, hv, _⟩ := hOld b' st' hb'
    obtain ⟨stc, hc, hpc⟩ := I3 b' sty c hy (hv.trans hs)
    exact hNewProd c stc hc hpc
  · intro c hc
    obtain ⟨stc, hcold, hpc⟩ := I4 c hc
    exact hNewProd c stc hcold hpc
  · intro src b' st' hcsrc hb'
    obtain ⟨sty, hy, _, _, hv, _⟩ := hOld b' st' hb'
    rw [← hv]
    exact I5 src b' sty hcsrc hy
  · intro b' c' stb stc src hb' hc' hsb hsc
    obtain ⟨sb, hyb, _, _, hvb, _⟩ := hOld b' stb hb'
    obtain ⟨sc, hyc, _, _, hvc, _⟩ := hOld c' stc hc'
    exact I6 b' c' sb sc src hyb hyc (hvb.trans hsb) (hvc.trans hsc)
  · intro b' st' hb' hdrop
    obtain ⟨sty, hy, _, _, hv, hd⟩ := hOld b' st' hb'
    rw [← hv]
    exact I7 b' sty hy (hd.trans hdrop)

theorem inv_preserve_done {s : NextChanSt} {b : Nat} {st : BatchSt}
    (hinv : NextChanInv s) (hb : s.batches.get? b = some st)
    (hw : st.waitersRem = 0) (hd : st.doneRun = false) :
    NextChanInv
      { s with batches := s.batches.set b { st with doneRun := true } } := by
  obtain ⟨I1, I2, I3, I4, I5, I6, I7⟩ := hinv
  have hupd := get?_set_of_get? { st with doneRun := true } hb
  have hOld : ∀ x stx,
      (s.batches.set b { st with doneRun := true }).get? x = some stx →
      ∃ sty, s.batches.get? x = some sty ∧
        sty.produced = stx.produced ∧ sty.sentVia = stx.sentVia ∧
        sty.dropped = stx.dropped := by
    intro x stx hx
    rcases upd_entry hupd hx with ⟨hbb, rfl⟩ | ⟨hbb, hx⟩
    · exact ⟨st, hbb ▸ hb, rfl, rfl, rfl⟩
    · exact ⟨stx, hx, rfl, rfl, rfl⟩
  have hNewProd : ∀ c stc, s.batches.get? c = some stc → stc.produced = true →
      ∃ stc', (s.batches.set b { st with doneRun := true }).get? c = some stc' ∧
        stc'.produced = true := by
    intro c stc hc hpc
    by_cases hbc : b = c
    · refine ⟨{ st with doneRun := true }, by rw [hupd c, if_pos hbc], ?_⟩
      have hstc : st = stc := by
        rw [← hbc, hb] at hc
        injection hc
      show st.produced = true
      rw [hstc]
      exact hpc
    · exact ⟨stc, by rw [hupd c, if_neg hbc]; exact hc, hpc⟩
  refine ⟨?_, ?_, ?_, ?_, ?_, ?_, ?_⟩
  · intro b' st' hb' _
    rcases upd_entry hupd hb' with ⟨hbb, rfl⟩ | ⟨hbb, hb'⟩
    · exact hw
    · exact I1 b' st' hb' (by assumption)
  · intro b' st' hb' hprod
    rcases upd_entry hupd hb' with ⟨hbb, rfl⟩ | ⟨hbb, hb'⟩
    · rfl
    · exact I2 b' st' hb' hprod
  · intro b' st' c hb' hs
    obtain ⟨sty, hy, _, hv, _⟩ := hOld b' st' hb'
    obtain ⟨stc, hc, hpc⟩ := I3 b' sty c hy (hv.trans hs)
    exact hNewProd c stc hc hpc
  · intro c hc
    obtain ⟨stc, hcold, hpc⟩ := I4 c hc
    exact hNewProd c stc hcold hpc
  · intro src b' st' hcsrc hb'
    obtain ⟨sty, hy, _, hv, _⟩ := hOld b' st' hb'
    rw [← hv]
    exact I5 src b' sty hcsrc hy
  · intro b' c' stb stc src hb' hc' hsb hsc
    obtain ⟨sb, hyb, _, hvb, _⟩ := hOld b' stb hb'
    obtain ⟨sc, hyc, _, hvc, _⟩ := hOld c' stc hc'
    exact I6 b' c' sb sc src hyb hyc (hvb.trans hsb) (hvc.trans hsc)
  · intro b' st' hb' hdrop
    obtain ⟨sty, hy, _, hv, hdp⟩ := hOld b' st' hb'
    rw [← hv]
    exact I7 b' sty hy (hdp.trans hdrop)

theorem inv_preserve_produce {s : NextChanSt} {b : Nat} {st : BatchSt}
    (hinv : NextChanInv s) (hb : s.batches.get? b = some st)
    (hdone : st.doneRun = true) (hprod : st.produced = false)
    (hchan : s.chan = none) :
    NextChanInv
      { s with batches := s.batches.set b { st with produced := true },
               chan := some (TokenSrc.fromBatch b) } := by
  obtain ⟨I1, I2, I3, I4, I5, I6, I7⟩ := hinv
  have hupd := get?_set_of_get? { st with produced := true } hb
  have hOld : ∀ x stx,
      (s.batches.set b { st with produced := true }).get? x = some stx →
      ∃ sty, s.batches.get? x = some sty ∧
        sty.doneRun = stx.doneRun ∧ sty.sentVia = stx.sentVia ∧
        sty.dropped = stx.dropped ∧ sty.waitersRem = stx.waitersRem := by
    intro x stx hx
    rcases upd_entry hupd hx with ⟨hbb, rfl⟩ | ⟨hbb, hx⟩
    · exact ⟨st, hbb ▸ hb, rfl, rfl, rfl, rfl⟩
    · exact ⟨stx, hx, rfl, rfl, rfl, rfl⟩
  have hNewProd : ∀ c stc, s.batches.get? c = some stc → stc.produced = true →
      ∃ stc', (s.batches.set b { st with produced := true }).get? c = some stc' ∧
        stc'.produced = true := by
    intro c stc hc hpc
    by_cases hbc : b = c
    · exact ⟨{ st with produced := true }, by rw [hupd c, if_pos hbc], rfl⟩
    · exact ⟨stc, by rw [hupd c, if_neg hbc]; exact hc, hpc⟩
  have hNoSent : ∀ y sty, s.batches.get? y = some sty →
      sty.sentVia = some (TokenSrc.fromBatch b) → False := by
    intro y sty hy hsent
    obtain ⟨stc, hc, hpc⟩ := I3 y sty b hy hsent
    rw [hb] at hc
    injection hc with hc
    rw [hc] at hprod
    rw [hprod] at hpc
    exact Bool.false_ne_true hpc
  refine ⟨?_, ?_, ?_, ?_, ?_, ?_, ?_⟩
  · intro b' st' hb' hdone'
    rcases upd_entry hupd hb' with ⟨hbb, rfl⟩ | ⟨hbb, hb'⟩
    · exact I1 b st hb hdone'
    · exact I1 b' st' hb' hdone'
  · intro b' st' hb' hprod'
    rcases upd_entry hupd hb' with ⟨hbb, rfl⟩ | ⟨hbb, hb'⟩
    · exact hdone
    · exact I2 b' st' hb' hprod'
  · intro b' st' c hb' hs
    obtain ⟨sty, hy, _, hv, _, _⟩ := hOld b' st' hb'
    obtain ⟨stc, hc, hpc⟩ := I3 b' sty c hy (hv.trans hs)
    exact hNewProd c stc hc hpc
  · intro c hc
    have hbc : b = c := by
      have h1 : some (TokenSrc.fromBatch b) = some (TokenSrc.fromBatch c) := hc
      injection h1 with h1
      injection h1
    exact ⟨{ st with produced := true }, by rw [hupd c, if_pos hbc], rfl⟩
  · intro src b' st' hcsrc hb'
    have hsrc : TokenSrc.fromBatch b = src := by
      have h1 : some (TokenSrc.fromBatch b) = some src := hcsrc
      injection h1
    intro hsent
    obtain ⟨sty, hy, _, hv, _, _⟩ := hOld b' st' hb'
    exact hNoSent b' sty hy (hv.trans (hsrc ▸ hsent))
  · intro b' c' stb stc src hb' hc' hsb hsc
    obtain ⟨sb, hyb, _, hvb, _, _⟩ := hOld b' stb hb'
    obtain ⟨sc, hyc, _, hvc, _, _⟩ := hOld c' stc hc'
    exact I6 b' c' sb sc src hyb hyc (hvb.trans hsb) (hvc.trans hsc)
  · intro b' st' hb' hdrop
    obtain ⟨sty, hy, _, hv, hdp, _⟩ := hOld b' st' hb'
    rw [← hv]
    exact I7 b' sty hy (hdp.trans hdrop)

theorem inv_preserve_take {s : NextChanSt} {b : Nat} {st : BatchSt}
    {src : TokenSrc}
    (hinv : NextChanInv s) (hb : s.batches.get? b = some st)
    (hsent : st.sentVia = none) (hdrop : st.dropped = false)
    (hchan : s.chan = some src) :
    NextChanInv
      { s with batches := s.batches.set b { st with sentVia := some src },
               chan := none } := by
  obtain ⟨I1, I2, I3, I4, I5, I6, I7⟩ := hinv
  have hupd := get?_set_of_get? { st with sentVia := some src } hb
  have hOld : ∀ x stx,
      (s.batches.set b { st with sentVia := some src }).get? x = some stx →
      ∃ sty, s.batches.get? x = some sty ∧
        sty.doneRun = stx.doneRun ∧ sty.produced = stx.produced ∧
        sty.dropped = stx.dropped ∧ sty.waitersRem = stx.waitersRem := by
    intro x stx hx
    rcases upd_entry hupd hx with ⟨hbb, rfl⟩ | ⟨hbb, hx⟩
    · exact ⟨st, hbb ▸ hb, rfl, rfl, rfl, rfl⟩
    · exact ⟨stx, hx, rfl, rfl, rfl, rfl⟩
  have hNewProd : ∀ c stc, s.batches.get? c = some stc → stc.produced = true →
      ∃ stc', (s.batches.set b { st with sentVia := some src }).get? c =
          some stc' ∧ stc'.produced = true := by
    intro c stc hc hpc
    by_cases hbc : b = c
    · refine ⟨{ st with sentVia := some src }, by rw [hupd c, if_pos hbc], ?_⟩
      have hstc : st = stc := by
        rw [← hbc, hb] at hc
        injection hc
      show st.produced = true
      rw [hstc]
      exact hpc
    · exact ⟨stc, by rw [hupd c, if_neg hbc]; exact hc, hpc⟩
  refine ⟨?_, ?_, ?_, ?_, ?_, ?_, ?_⟩
  · intro b' st' hb' hdone'
    rcases upd_entry hupd hb' with ⟨hbb, rfl⟩ | ⟨hbb, hb'⟩
    · exact I1 b st hb hdone'
    · exact I1 b' st' hb' hdone'
  · intro b' st' hb' hprod'
    rcases upd_entry hupd hb' with ⟨hbb, rfl⟩ | ⟨hbb, hb'⟩
    · exact I2 b st hb hprod'
    · exact I2 b' st' hb' hprod'
  · intro b' st' c hb' hs
    rcases upd_entry hupd hb' with ⟨hbb, rfl⟩ | ⟨hbb, hb'⟩
    · have hsrc : src = TokenSrc.fromBatch c := by
        have h1 : some src = some (TokenSrc.fromBatch c) := hs
        injection h1
      obtain ⟨stc, hc, hpc⟩ := I4 c (by rw [← hsrc]; exact hchan)
      exact hNewProd c stc hc hpc
    · obtain ⟨stc, hc, hpc⟩ := I3 b' st' c hb' hs
      exact hNewProd c stc hc hpc
  · intro c hc
    exact absurd hc (by simp)
  · intro src' b' st' hcsrc _
    exact absurd hcsrc (by simp)
  · intro b' c' stb stc src' hb' hc' hsb hsc
    rcases upd_entry hupd hb' with ⟨hbb, rfl⟩ | ⟨hbb, hb'⟩ <;>
      rcases upd_entry hupd hc' with ⟨hcc, rfl⟩ | ⟨hcc, hc'⟩
    · rw [← hbb, ← hcc]
    · have hsrc' : some src = some src' := hsb
      injection hsrc' with hsrc'
      exact absurd (hsrc' ▸ hsc) (I5 src c' stc hchan hc')
    · have hsrc' : some src = some src' := hsc
      injection hsrc' with hsrc'
      exact absurd (hsrc' ▸ hsb) (I5 src b' stb hchan hb')
    · exact I6 b' c' stb stc src' hb' hc' hsb hsc
  · intro b' st' hb' hdrop'
    rcases upd_entry hupd hb' with ⟨hbb, rfl⟩ | ⟨hbb, hb'⟩
    · have hcontra : st.dropped = true := hdrop'
      rw [hdrop] at hcontra
      exact absurd hcontra Bool.false_ne_true
    · exact I7 b' st' hb' hdrop'

theorem inv_preserve_drop {s : NextChanSt} {b : Nat} {st : BatchSt}
    (hinv : NextChanInv s) (hb : s.batches.get? b = some st)
    (hsent : st.sentVia = none) (hdrop : st.dropped = false)
    (hquit : s.quit = true) :
    NextChanInv
      { s with batches := s.batches.set b { st with dropped := true } } := by
  obtain ⟨I1, I2, I3, I4, I5, I6, I7⟩ := hinv
  have hupd := get?_set_of_get? { st with dropped := true } hb
  have hOld : ∀ x stx,
      (s.batches.set b { st with dropped := true }).get? x = some stx →
      ∃ sty, s.batches.get? x = some sty ∧
        sty.doneRun = stx.doneRun ∧ sty.produced = stx.produced ∧
        sty.sentVia = stx.sentVia ∧ sty.waitersRem = stx.waitersRem := by
    intro x stx hx
    rcases upd_entry hupd hx with ⟨hbb, rfl⟩ | ⟨hbb, hx⟩
    · exact ⟨st, hbb ▸ hb, rfl, rfl, rfl, rfl⟩
    · exact ⟨stx, hx, rfl, rfl, rfl, rfl⟩
  have hNewProd : ∀ c stc, s.batches.get? c = some stc → stc.produced = true →
      ∃ stc', (s.batches.set b { st with dropped := true }).get? c =
          some stc' ∧ stc'.produced = true := by
    intro c stc hc hpc
    by_cases hbc : b = c
    · refine ⟨{ st with dropped := true }, by rw [hupd c, if_pos hbc], ?_⟩
      have hstc : st = stc := by
        rw [← hbc, hb] at hc
        injection hc
      show st.produced = true
      rw [hstc]
      exact hpc
    · exact ⟨stc, by rw [hupd c, if_neg hbc]; exact hc, hpc⟩
  refine ⟨?_, ?_, ?_, ?_, ?_, ?_, ?_⟩
  · intro b' st' hb' hdone'
    rcases upd_entry hupd hb' with ⟨hbb, rfl⟩ | ⟨hbb, hb'⟩
    · exact I1 b st hb hdone'
    · exact I1 b' st' hb' hdone'
  · intro b' st' hb' hprod'
    rcases upd_entry hupd hb' with ⟨hbb, rfl⟩ | ⟨hbb, hb'⟩
    · exact I2 b st hb hprod'
    · exact I2 b' st' hb' hprod'
  · intro b' st' c hb' hs
    obtain ⟨sty, hy, _, _, hv, _⟩ := hOld b' st' hb'
    obtain ⟨stc, hc, hpc⟩ := I3 b' sty c hy (hv.trans hs)
    exact hNewProd c stc hc hpc
  · intro c hc
    obtain ⟨stc, hcold, hpc⟩ := I4 c hc
    exact hNewProd c stc hcold hpc
  · intro src b' st' hcsrc hb'
    obtain ⟨sty, hy, _, _, hv, _⟩ := hOld b' st' hb'
    rw [← hv]
    exact I5 src b' sty hcsrc hy
  · intro b' c' stb stc src hb' hc' hsb hsc
    obtain ⟨sb, hyb, _, _, hvb, _⟩ := hOld b' stb hb'
    obtain ⟨sc, hyc, _, _, hvc, _⟩ := hOld c' stc hc'
    exact I6 b' c' sb sc src hyb hyc (hvb.trans hsb) (hvc.trans hsc)
  · intro b' st' hb' _
    rcases upd_entry hupd hb' with ⟨hbb, rfl⟩ | ⟨hbb, hb'⟩
    · exact hsent
    · exact I7 b' st' hb' (by assumption)

theorem nextStep_inv {s s' : NextChanSt} (hinv : NextChanInv s)
    (hstep : NextStep s s') : NextChanInv s' := by
  cases hstep with
  | resolveWaiter b st n hb hw => exact inv_preserve_resolve hinv hb hw
  | runBatchDone b st hb hw hd => exact inv_preserve_done hinv hb hw hd
  | produceToken b st hb hdone hprod hchan =>
      exact inv_preserve_produce hinv hb hdone hprod hchan
  | takeToken b st src hb hsent hdrop hchan =>
      exact inv_preserve_take hinv hb hsent hdrop hchan
  | takeQuit b st hb hsent hdrop hquit =>
      exact inv_preserve_drop hinv hb hsent hdrop hquit
  | fireQuit => exact hinv

theorem nextReachable_inv {s0 s : NextChanSt} (h0 : NextChanInv s0)
    (hr : NextReachable s0 s) : NextChanInv s := by
  induction hr with
  | refl => exact h0
  | tail _ hstep ih => exact nextStep_inv ih hstep


/-- C2 (amended): every `WantedKeysMsg` emission consumes exactly one
token of the shared per-stream `next` channel — distinct emissions
consume distinct tokens — and any consumed token other than the single
registration pre-signal was produced by a batch-completion goroutine
strictly after every waiter of its own batch had resolved and its
`BatchDone` (finalizer included) had run; a gate that committed to the
quit arm never sends its message.  Emission for one batch is not in
general gated on the previous batch's completion: the pre-signal, or a
concurrently completed batch's token, can release it first (see the
counterexample). -/
theorem wantedKeysMsg_gating_tokens (ws : List Nat) (s : NextChanSt)
    (hr : NextReachable (initNextChan ws) s) :
    (∀ b st c, s.batches.get? b = some st →
        st.sentVia = some (TokenSrc.fromBatch c) →
        ∃ stc, s.batches.get? c = some stc ∧
          stc.waitersRem = 0 ∧ stc.doneRun = true) ∧
    (∀ b c stb stc src, s.batches.get? b = some stb →
        s.batches.get? c = some stc →
        stb.sentVia = some src → stc.sentVia = some src → b = c) ∧
    (∀ b st, s.batches.get? b = some st → st.dropped = true →
      st.sentVia = none) := by
  obtain ⟨I1, I2, I3, _, _, I6, I7⟩ := nextReachable_inv (initNextChan_inv ws) hr
  refine ⟨?_, I6, I7⟩
  intro b st c hb hs
  obtain ⟨stc, hc, hpc⟩ := I3 b st c hb hs
  have hdone := I2 c stc hc hpc
  exact ⟨stc, hc, I1 c stc hc hdone, hdone⟩

theorem wantedKeysMsg_gating_tokens_witness :
    (∀ b st c, (initNextChan [1]).batches.get? b = some st →
        st.sentVia = some (TokenSrc.fromBatch c) →
        ∃ stc, (initNextChan [1]).batches.get? c = some stc ∧
          stc.waitersRem = 0 ∧ stc.doneRun = true) ∧
    (∀ b c stb stc src, (initNextChan [1]).batches.get? b = some stb →
        (initNextChan [1]).batches.get? c = some stc →
        stb.sentVia = some src → stc.sentVia = some src → b = c) ∧
    (∀ b st, (initNextChan [1]).batches.get? b = some st →
      st.dropped = true → st.sentVia = none) :=
  wantedKeysMsg_gating_tokens [1] (initNextChan [1])
    (NextReachable.refl (initNextChan [1]))

/-- The state one `takeToken` step after `initNextChan [1, 0]`: batch 1
consumed the registration pre-signal token. -/
def c2After : NextChanSt :=
  { batches := [⟨1, false, false, none, false⟩,
                ⟨0, false, false, some TokenSrc.preSignal, false⟩],
    chan := none,
    quit := false }

/-- C2 counterexample: with two handled batches — batch 0 still holding
one unresolved waiter and its `BatchDone` not yet run — batch 1's gate
can take the registration pre-signal token that is sitting in the
shared `next` channel (streamer.go 413), so its `WantedKeysMsg` is
emitted (`sentVia` set) while the previous batch has an unresolved
waiter and `doneRun = false`.  This reachable schedule refutes the
claim that the message is emitted only after every waiter of the
previous batch has resolved and its batch_done has run. -/
theorem wantedKeysMsg_not_gated_on_previous_batch :
    NextReachable (initNextChan [1, 0]) c2After ∧
    c2After.batches.get? 1 =
      some ⟨0, false, false, some TokenSrc.preSignal, false⟩ ∧
    c2After.batches.get? 0 = some ⟨1, false, false, none, false⟩ := by
  refine ⟨?_, rfl, rfl⟩
  refine NextReachable.tail (NextReachable.refl _) ?_
  exact NextStep.takeToken (initNextChan [1, 0]) 1
    ⟨0, false, false, none, false⟩ TokenSrc.preSignal rfl rfl rfl rfl


/-! ### WantedKeys handling (streamer.go 561-589) -/

structure DeliveryOut where
  key : List Nat
  sdata : List Nat
  priority : Nat
deriving DecidableEq, Repr

structure OutgoingState where
  priority : Nat
  currentBatch : List Nat
deriving DecidableEq, Repr

/-- Modelled from the spec: the priority queue
(`swarm/network/priorityqueue`) is repository code not under `src/`.
Spec §4.2: `new(levels, capacity)` yields independent bounded FIFOs;
`push(item, prio)` enqueues when the target level has room and
otherwise returns a "full" error.  The queue state is one list per
level; `Deliver`/`SendPriority` push with a nil cancellation token, so
the non-blocking path applies. -/
def pqPush (q : List (List DeliveryOut)) (prio : Nat) (d : DeliveryOut) :
    Except String (List (List DeliveryOut)) :=
  match q.get? prio with
  | none => Except.error "invalid priority"
  | some level =>
      if level.length < PriorityQueueCap then
        Except.ok (q.set prio (level ++ [d]))
      else
        Except.error "queue full"

/-- The delivery loop of `handleWantedKeysMsg` (streamer.go 574-587):
for each index `i < l`, when bit `i` of `want` is set, `GetData` is
consulted on `hashes[i*HashSize:(i+1)*HashSize]`; a nil result makes
the handler fail with "not found"; otherwise `Deliver` (streamer.go
601-607) pushes a `ChunkDeliveryMsg` with that key and data at the
handler's priority, and a push failure (full level) aborts the loop
with that error, the delivery not enqueued and later bits not
consulted.  The queue state is threaded through; deliveries already
pushed stay in the queue on a later failure. -/
def wantedKeysLoop (getData : List Nat → Option (List Nat)) (prio : Nat)
    (hashes : List Nat) (want : List Bool) (l i : Nat)
    (q : List (List DeliveryOut)) :
    List (List DeliveryOut) × Except String Unit :=
  if _h : i < l then
    if bvGet want i then
      match getData (hashSlice hashes (i * HashSize)) with
      | none => (q, Except.error "not found")
      | some data =>
          match pqPush q prio ⟨hashSlice hashes (i * HashSize), data, prio⟩ with
          | Except.error e => (q, Except.error e)
          | Except.ok q' => wantedKeysLoop getData prio hashes want l (i + 1) q'
    else
      wantedKeysLoop getData prio hashes want l (i + 1) q
  else
    (q, Except.ok ())
termination_by l - i

/-- Embeds `handleWantedKeysMsg` (streamer.go 561-589): look up the
outgoing handler (`none` embeds a missing registration), parse the
want bitvector over `len(currentBatch)/HashSize` bits, then run the
delivery loop from index 0 against the peer's priority queue.  (The
spawned `SendUnsyncedKeys` for the next range is a separate concern,
embedded as `SendUnsyncedKeys` below.) -/
def handleWantedKeysMsg (getData : List Nat → Option (List Nat))
    (s : Option OutgoingState) (wantBytes : List Nat)
    (q : List (List DeliveryOut)) :
    List (List DeliveryOut) × Except String Unit :=
  match s with
  | none => (q, Except.error "stream not provided")
  | some st =>
    match bvNewFromBytes wantBytes (st.currentBatch.length / HashSize) with
    | none => (q, Except.error "bitvector length mismatch")
    | some want =>
        wantedKeysLoop getData st.priority st.currentBatch want
          (st.currentBatch.length / HashSize) 0 q

/-- Index of the first set want-bit whose `GetData` is nil, scanning
indices `i, i+1, ..., l-1`. -/
def firstMissingFrom (getData : List Nat → Option (List Nat))
    (hashes : List Nat) (want : List Bool) (l i : Nat) : Option Nat :=
  (List.range' i (l - i)).find? (fun j =>
    bvGet want j && (getData (hashSlice hashes (j * HashSize))).isNone)

/-- The index at which the loop stops consulting bits for reasons of
data: the first set bit with nil data, or `l` when there is none. -/
def stopIndexFrom (getData : List Nat → Option (List Nat))
    (hashes : List Nat) (want : List Bool) (l i : Nat) : Nat :=
  match firstMissingFrom getData hashes want l i with
  | none => l
  | some j => j

/-- The deliveries predicted for indices `i ≤ j < stop`: exactly one
per set bit with data, keyed by the offered hash, carrying `GetData`'s
payload at the handler's priority; none for unset bits. -/
def expectedDeliveriesFrom (getData : List Nat → Option (List Nat))
    (prio : Nat) (hashes : List Nat) (want : List Bool) (i stop : Nat) :
    List DeliveryOut :=
  (List.range' i (stop - i)).filterMap (fun j =>
    if bvGet want j then
      (getData (hashSlice hashes (j * HashSize))).map
        (fun d => ⟨hashSlice hashes (j * HashSize), d, prio⟩)
    else none)

/-- Closed-form outcome of the delivery loop: with `room` the free
space of the handler's priority level, either every predicted delivery
fits — all are appended to that level and the result is ok, or "not
found" when a set bit had nil data — or the level fills first, exactly
the first `room` predicted deliveries are appended, and the handler
fails with the push error "queue full". -/
def wantedOutcome (getData : List Nat → Option (List Nat)) (prio : Nat)
    (hashes : List Nat) (want : List Bool) (l i : Nat)
    (q : List (List DeliveryOut)) :
    List (List DeliveryOut) × Except String Unit :=
  let level := q.getD prio []
  let ds := expectedDeliveriesFrom getData prio hashes want i
    (stopIndexFrom getData hashes want l i)
  if ds.length ≤ PriorityQueueCap - level.length then
    (q.set prio (level ++ ds),
      match firstMissingFrom getData hashes want l i with
      | none => Except.ok ()
      | some _ => Except.error "not found")
  else
    (q.set prio (level ++ ds.take (PriorityQueueCap - level.length)),
      Except.error "queue full")

theorem set_getD_self {α : Type} :
    ∀ (l : List α) (i : Nat) (d : α), i < l.length → l.set i (l.getD i d) = l := by
  intro l
  induction l with
  | nil => intro i d h; simp at h
  | cons a t ih =>
    intro i d h
    cases i with
    | zero => simp [List.getD]
    | succ n =>
      simp only [List.set, List.getD_cons_succ, List.cons.injEq, true_and]
      exact ih n d (by simpa using h)

theorem wantedKeysLoop_spec (getData : List Nat → Option (List Nat))
    (prio : Nat) (hashes : List Nat) (want : List Bool) (l : Nat) :
    ∀ i q, prio < q.length →
      wantedKeysLoop getData prio hashes want l i q =
        wantedOutcome getData prio hashes want l i q := by
  have hcap : PriorityQueueCap = 3 := rfl
  have H : ∀ n i q, l - i ≤ n → prio < q.length →
      wantedKeysLoop getData prio hashes want l i q =
        wantedOutcome getData prio hashes want l i q := by
    intro n
    induction n with
    | zero =>
      intro i q hle hq
      have hil : ¬ i < l := by omega
      have h0 : l - i = 0 := by omega
      have hfm : firstMissingFrom getData hashes want l i = none := by
        rw [firstMissingFrom, h0]
        rfl
      have hstop : stopIndexFrom getData hashes want l i = l := by
        rw [stopIndexFrom, hfm]
      have hds : expectedDeliveriesFrom getData prio hashes want i l = [] := by
        rw [expectedDeliveriesFrom, h0]
        rfl
      rw [wantedKeysLoop.eq_def]
      simp only [hil, dite_false]
      simp only [wantedOutcome, hstop, hds, hfm, List.length_nil, Nat.zero_le,
        if_true, List.append_nil]
      rw [set_getD_self q prio [] hq]
    | succ n ih =>
      intro i q hle hq
      by_cases hil : i < l
      · have hlevget : q.get? prio = some (q.getD prio []) := by
          rw [List.getD_eq_get?]
          obtain ⟨x, hx⟩ : ∃ x, q.get? prio = some x := ⟨_, List.get?_eq_get hq⟩
          rw [hx]
          rfl
        have hrange : List.range' i (l - i) =
            i :: List.range' (i + 1) (l - (i + 1)) := by
          have h1 : l - i = (l - (i + 1)) + 1 := by omega
          rw [h1, List.range'_succ]
        rw [wantedKeysLoop.eq_def]
        simp only [hil, dite_true]
        by_cases hw : bvGet want i
        · rw [if_pos hw]
          cases hgd : getData (hashSlice hashes (i * HashSize)) with
          | none =>
            have hfm : firstMissingFrom getData hashes want l i = some i := by
              rw [firstMissingFrom, hrange]
              apply List.find?_cons_of_pos
              simp [hw, hgd]
            have hstop : stopIndexFrom getData hashes want l i = i := by
              rw [stopIndexFrom, hfm]
            have hds : expectedDeliveriesFrom getData prio hashes want i i = [] := by
              rw [expectedDeliveriesFrom, Nat.sub_self]
              rfl
            simp only [wantedOutcome, hstop, hds, hfm, List.length_nil,
              Nat.zero_le, if_true, List.append_nil]
            rw [set_getD_self q prio [] hq]
          | some data =>
            have hfm : firstMissingFrom getData hashes want l i =
                firstMissingFrom getData hashes want l (i + 1) := by
              rw [firstMissingFrom, hrange, List.find?_cons_of_neg]
              · rfl
              · simp [hw, hgd]
            have hstop : stopIndexFrom getData hashes want l i =
                stopIndexFrom getData hashes want l (i + 1) := by
              rw [stopIndexFrom, stopIndexFrom, hfm]
            have hstopgt : i < stopIndexFrom getData hashes want l (i + 1) := by
              rw [stopIndexFrom]
              cases hfm2 : firstMissingFrom getData hashes want l (i + 1) with
              | none => exact hil
              | some j =>
                have hfm3 := hfm2
                rw [firstMissingFrom] at hfm3
                have hjm := List.mem_of_find?_eq_some hfm3
                have hij := (List.mem_range'_1.mp hjm).1
                show i < j
                omega
            have hhead :
                expectedDeliveriesFrom getData prio hashes want i
                    (stopIndexFrom getData hashes want l (i + 1)) =
                  ⟨hashSlice hashes (i * HashSize), data, prio⟩ ::
                    expectedDeliveriesFrom getData prio hashes want (i + 1)
                      (stopIndexFrom getData hashes want l (i + 1)) := by
              rw [expectedDeliveriesFrom]
              have h1 : stopIndexFrom getData hashes want l (i + 1) - i =
                  (stopIndexFrom getData hashes want l (i + 1) - (i + 1)) + 1 := by
                omega
              rw [h1, List.range'_succ, List.filterMap_cons_some]
              · rfl
              · simp [hw, hgd]
            by_cases hroom : (q.getD prio []).length < PriorityQueueCap
            · have hpush : pqPush q prio
                  ⟨hashSlice hashes (i * HashSize), data, prio⟩ =
                  Except.ok (q.set prio ((q.getD prio []) ++
                    [⟨hashSlice hashes (i * HashSize), data, prio⟩])) := by
                rw [pqPush]
                simp only [hlevget]
                rw [if_pos hroom]
              simp only [hpush]
              have hq' : prio < (q.set prio ((q.getD prio []) ++
                  [⟨hashSlice hashes (i * HashSize), data, prio⟩])).length := by
                simpa using hq
              rw [ih (i + 1) _ (by omega) hq']
              have hlev' : (q.set prio ((q.getD prio []) ++
                  [⟨hashSlice hashes (i * HashSize), data, prio⟩])).getD prio [] =
                  (q.getD prio []) ++
                    [⟨hashSlice hashes (i * HashSize), data, prio⟩] := by
                rw [List.getD_eq_get?, List.get?_set_eq, hlevget]
                rfl
              simp only [wantedOutcome, hstop, hhead, hfm, hlev', List.set_set,
                List.length_append, List.length_cons, List.length_singleton,
                List.length_nil, Nat.zero_add]
              by_cases hc : (expectedDeliveriesFrom getData prio hashes want (i + 1)
                  (stopIndexFrom getData hashes want l (i + 1))).length ≤
                    PriorityQueueCap - ((q.getD prio []).length + 1)
              · rw [if_pos hc, if_pos (by omega)]
                rw [List.append_assoc, List.singleton_append]
              · rw [if_neg hc, if_neg (by omega)]
                have htake : PriorityQueueCap - (q.getD prio []).length =
                    (PriorityQueueCap - ((q.getD prio []).length + 1)) + 1 := by
                  omega
                rw [htake, List.take_succ_cons, List.append_assoc,
                  List.singleton_append]
            · have hpush : pqPush q prio
                  ⟨hashSlice hashes (i * HashSize), data, prio⟩ =
                  Except.error "queue full" := by
                rw [pqPush]
                simp only [hlevget]
                rw [if_neg hroom]
              simp only [hpush]
              have hroom0 : PriorityQueueCap - (q.getD prio []).length = 0 := by
                omega
              simp only [wantedOutcome, hstop, hhead, hfm, hroom0,
                List.length_cons, List.take_zero, List.append_nil]
              rw [if_neg (by omega)]
              rw [set_getD_self q prio [] hq]
        · rw [if_neg hw]
          have hfm : firstMissingFrom getData hashes want l i =
              firstMissingFrom getData hashes want l (i + 1) := by
            rw [firstMissingFrom, hrange, List.find?_cons_of_neg]
            · rfl
            · simp [hw]
          have hstop : stopIndexFrom getData hashes want l i =
              stopIndexFrom getData hashes want l (i + 1) := by
            rw [stopIndexFrom, stopIndexFrom, hfm]
          have hstopgt : i < stopIndexFrom getData hashes want l (i + 1) := by
            rw [stopIndexFrom]
            cases hfm2 : firstMissingFrom getData hashes want l (i + 1) with
            | none => exact hil
            | some j =>
              have hfm3 := hfm2
              rw [firstMissingFrom] at hfm3
              have hjm := List.mem_of_find?_eq_some hfm3
              have hij := (List.mem_range'_1.mp hjm).1
              show i < j
              omega
          have hskip :
              expectedDeliveriesFrom getData prio hashes want i
                  (stopIndexFrom getData hashes want l (i + 1)) =
                expectedDeliveriesFrom getData prio hashes want (i + 1)
                  (stopIndexFrom getData hashes want l (i + 1)) := by
            rw [expectedDeliveriesFrom]
            have h1 : stopIndexFrom getData hashes want l (i + 1) - i =
                (stopIndexFrom getData hashes want l (i + 1) - (i + 1)) + 1 := by
              omega
            rw [h1, List.range'_succ, List.filterMap_cons_none]
            · rw [expectedDeliveriesFrom]
            · simp [hw]
          rw [ih (i + 1) q (by omega) hq]
          simp only [wantedOutcome, hstop, hskip, hfm]
      · have h0 : l - i = 0 := by omega
        have hfm : firstMissingFrom getData hashes want l i = none := by
          rw [firstMissingFrom, h0]
          rfl
        have hstop : stopIndexFrom getData hashes want l i = l := by
          rw [stopIndexFrom, hfm]
        have hds : expectedDeliveriesFrom getData prio hashes want i l = [] := by
          rw [expectedDeliveriesFrom, h0]
          rfl
        rw [wantedKeysLoop.eq_def]
        simp only [hil, dite_false]
        simp only [wantedOutcome, hstop, hds, hfm, List.length_nil, Nat.zero_le,
          if_true, List.append_nil]
        rw [set_getD_self q prio [] hq]
  exact fun i q hq => H (l - i) i q le_rfl hq

/-- C3 (amended): for a registered outgoing stream whose want bitvector
parses over `len(currentBatch)/HashSize` bits, the handler walks the
set bits in index order; for each set bit `GetData` is consulted and a
delivery keyed by the offered hash with that data is pushed at the
handler's priority; a nil `GetData` fails the handler with "not found"
and a full priority level fails it with the push error, in both cases
keeping the deliveries already enqueued and consulting no later bit;
unset bits enqueue nothing.  Formally the handler equals the
closed-form `wantedOutcome`: all predicted deliveries are appended
when the level has room for them (with ok or "not found" as the data
dictates), otherwise exactly the first `room` of them are appended and
the handler fails with "queue full". -/
theorem handleWantedKeysMsg_deliveries (getData : List Nat → Option (List Nat))
    (prio : Nat) (hashes wantBytes : List Nat) (want : List Bool)
    (q : List (List DeliveryOut))
    (hparse : bvNewFromBytes wantBytes (hashes.length / HashSize) = some want)
    (hprio : prio < q.length) :
    handleWantedKeysMsg getData (some ⟨prio, hashes⟩) wantBytes q =
      wantedOutcome getData prio hashes want (hashes.length / HashSize) 0 q := by
  simp only [handleWantedKeysMsg, hparse]
  exact wantedKeysLoop_spec getData prio hashes want (hashes.length / HashSize)
    0 q hprio

/-- Concrete batch for the C3 witness: two hashes, both bits wanted. -/
def c3Hashes : List Nat := List.replicate 32 1 ++ List.replicate 32 2

theorem handleWantedKeysMsg_deliveries_witness :
    handleWantedKeysMsg (fun h => some h) (some ⟨2, c3Hashes⟩) [3]
        [[], [], [], [], []] =
      wantedOutcome (fun h => some h) 2 c3Hashes [true, true]
        (c3Hashes.length / HashSize) 0 [[], [], [], [], []] :=
  handleWantedKeysMsg_deliveries (fun h => some h) 2 c3Hashes [3] [true, true]
    [[], [], [], [], []] (by decide) (by decide)

/-- Concrete batch refuting the unconditional per-set-bit delivery
guarantee: four hashes, all wanted, all with data. -/
def c3FourHashes : List Nat :=
  List.replicate 32 1 ++ List.replicate 32 2 ++ List.replicate 32 3 ++
    List.replicate 32 4

set_option maxRecDepth 4000 in
/-- C3 counterexample: with four offered hashes all wanted and all
having data, the handler's priority level (capacity
`PriorityQueueCap = 3`) fills after three deliveries; the push for the
fourth set bit fails, the handler returns the push error "queue full",
and no delivery for the fourth hash is enqueued — refuting the claim
that every set bit whose `GetData` returns data gets exactly one
delivery enqueued. -/
theorem handleWantedKeysMsg_full_queue_counterexample :
    handleWantedKeysMsg (fun h => some h) (some ⟨2, c3FourHashes⟩) [15]
        [[], [], [], [], []] =
      ([[], [],
        [⟨List.replicate 32 1, List.replicate 32 1, 2⟩,
          ⟨List.replicate 32 2, List.replicate 32 2, 2⟩,
          ⟨List.replicate 32 3, List.replicate 32 3, 2⟩], [], []],
        Except.error "queue full") ∧
    (⟨List.replicate 32 4, List.replicate 32 4, 2⟩ : DeliveryOut) ∉
      [⟨List.replicate 32 1, List.replicate 32 1, 2⟩,
        ⟨List.replicate 32 2, List.replicate 32 2, 2⟩,
        ⟨List.replicate 32 3, List.replicate 32 3, 2⟩] := by
  constructor
  · simp +decide [handleWantedKeysMsg, wantedKeysLoop.eq_def, pqPush,
      bvNewFromBytes, bvGet, hashSlice, c3FourHashes, HashSize,
      PriorityQueueCap]
  · decide

/-! ### Registration maps and subscription (streamer.go 360-415, 447-494) -/

def lookupEntry {α : Type} (m : List (List Nat × α)) (k : List Nat) : Option α :=
  (m.find? (fun p => p.1 == k)).map (fun p => p.2)

/-- Embeds `StreamerPeer.getOutgoingStreamer` (streamer.go 360-368): looks up
the peer's outgoing map under the given string key. -/
def getOutgoingStreamer (m : List (List Nat × OutgoingState)) (s : List Nat) :
    Except String OutgoingState :=
  match lookupEntry m s with
  | none => Except.error "stream not provided"
  | some e => Except.ok e

/-- Embeds `StreamerPeer.setOutgoingStreamer` (streamer.go 380-392): errors on
a key already registered, otherwise inserts. -/
def setOutgoingStreamer (m : List (List Nat × OutgoingState)) (s : List Nat)
    (o : OutgoingState) : Except String (List (List Nat × OutgoingState)) :=
  match lookupEntry m s with
  | some _ => Except.error "stream already registered"
  | none => Except.ok (m ++ [(s, o)])

structure IncomingState where
  priority : Nat
  live : Bool
  nextTokens : Nat
deriving DecidableEq, Repr

/-- Embeds `StreamerPeer.setIncomingStreamer` (streamer.go 394-415): errors on
a key already registered, otherwise inserts with a `next` channel
holding one pre-signalled token. -/
def setIncomingStreamer (m : List (List Nat × IncomingState)) (s : List Nat)
    (priority : Nat) (live : Bool) :
    Except String (List (List Nat × IncomingState)) :=
  match lookupEntry m s with
  | some _ => Except.error "stream already registered"
  | none => Except.ok (m ++ [(s, ⟨priority, live, 1⟩)])

structure SubscribeMsg where
  stream : List Nat
  key : List Nat
  fromv : Nat
  tov : Nat
  priority : Nat
deriving DecidableEq, Repr

/-- Embeds `Streamer.Subscribe` (streamer.go 447-476): incoming-constructor
lookup, peer lookup and the constructor call are embedded as the
booleans `hasIncomingCtor`/`ctorOk` and the `Option` peer; the
incoming handler is registered under the stream name `s` alone (the
call passes `s`, not `s ++ t`); only on successful registration is the
`SubscribeMsg` enqueued at `priority`. -/
def Subscribe (hasIncomingCtor : Bool)
    (peer : Option (List (List Nat × IncomingState))) (ctorOk : Bool)
    (s t : List Nat) (fromv tov priority : Nat) (live : Bool) :
    Except String (List (List Nat × IncomingState) × SubscribeMsg) :=
  if hasIncomingCtor = false then Except.error "stream not registered"
  else
    match peer with
    | none => Except.error "peer not found"
    | some m =>
      if ctorOk = false then Except.error "constructor failed"
      else
        match setIncomingStreamer m s priority live with
        | Except.error e => Except.error e
        | Except.ok m' => Except.ok (m', ⟨s, t, fromv, tov, priority⟩)

/-- Embeds `StreamerPeer.handleSubscribeMsg` (streamer.go 478-494): the
outgoing handler is registered under `req.Stream + string(req.Key)`;
a duplicate registration is swallowed (`return nil`) and no
`SendUnsyncedKeys` is spawned; on fresh registration the first
`SendUnsyncedKeys` is spawned (the boolean result). -/
def handleSubscribeMsg (hasOutgoingCtor ctorOk : Bool)
    (m : List (List Nat × OutgoingState)) (stream key : List Nat)
    (priority : Nat) :
    Except String (List (List Nat × OutgoingState) × Bool) :=
  if hasOutgoingCtor = false then Except.error "stream not registered"
  else if ctorOk = false then Except.error "constructor failed"
  else
    match setOutgoingStreamer m (stream ++ key) ⟨priority, []⟩ with
    | Except.error _ => Except.ok (m, false)
    | Except.ok m' => Except.ok (m', true)

/-- C5: evaluation at a subscription with stream name `"a"` (0x61) and
non-empty key `0x01`.  `handleSubscribeMsg` registers the outgoing
entry under `name||key = [97, 1]`, but the lookup performed by
`handleWantedKeysMsg`/`handleTakeoverProofMsg` uses the stream name
`[97]` alone and fails; and `Subscribe` registers the incoming entry
under the name `[97]` alone, not under `name||key` — the claim would
require both maps keyed by `name||key` and the lookups to find the
handler. -/
theorem streamKey_composite_lookup_mismatch :
    handleSubscribeMsg true true [] [97] [1] 2 =
      Except.ok ([([97, 1], ⟨2, []⟩)], true) ∧
    getOutgoingStreamer [([97, 1], ⟨2, []⟩)] [97] =
      Except.error "stream not provided" ∧
    Subscribe true (some []) true [97] [1] 0 0 2 true =
      Except.ok ([([97], ⟨2, true, 1⟩)], ⟨[97], [1], 0, 0, 2⟩) := by
  exact ⟨rfl, rfl, rfl⟩

/-- C7: duplicate stream registration is asymmetric.  `Subscribe`
surfaces the duplicate-registration error to its caller and enqueues
no `SubscribeMsg` (the error return carries no message), whereas
`handleSubscribeMsg` swallows the duplicate and returns nil to the
dispatcher, leaving the map unchanged and spawning no
`SendUnsyncedKeys`. -/
theorem duplicate_registration_asymmetric
    (incomingMap : List (List Nat × IncomingState))
    (outgoingMap : List (List Nat × OutgoingState))
    (s t stream key : List Nat) (fromv tov prio : Nat) (live : Bool)
    (hdupIn : (lookupEntry incomingMap s).isSome = true)
    (hdupOut : (lookupEntry outgoingMap (stream ++ key)).isSome = true) :
    Subscribe true (some incomingMap) true s t fromv tov prio live =
      Except.error "stream already registered" ∧
    handleSubscribeMsg true true outgoingMap stream key prio =
      Except.ok (outgoingMap, false) := by
  obtain ⟨eIn, heIn⟩ := Option.isSome_iff_exists.mp hdupIn
  obtain ⟨eOut, heOut⟩ := Option.isSome_iff_exists.mp hdupOut
  constructor
  · simp [Subscribe, setIncomingStreamer, heIn]
  · simp [handleSubscribeMsg, setOutgoingStreamer, heOut]

theorem duplicate_registration_asymmetric_witness :
    Subscribe true (some [([97], ⟨1, true, 1⟩)]) true [97] [] 0 0 1 true =
      Except.error "stream already registered" ∧
    handleSubscribeMsg true true [([98], ⟨1, []⟩)] [98] [] 1 =
      Except.ok ([([98], ⟨1, []⟩)], false) :=
  duplicate_registration_asymmetric [([97], ⟨1, true, 1⟩)] [([98], ⟨1, []⟩)]
    [97] [] [98] [] 0 0 1 true (by decide) (by decide)

/-! ### SendUnsyncedKeys (streamer.go 615-628) -/

structure HandoverProofM where
  sig : List Nat
  stream : List Nat
  start : Nat
  stop : Nat
  root : List Nat
deriving DecidableEq, Repr

structure UnsyncedKeysMsgM where
  stream : List Nat
  key : List Nat
  fromv : Nat
  tov : Nat
  hashes : List Nat
  proof : Option HandoverProofM
deriving DecidableEq, Repr

/-- Embeds `StreamerPeer.SendUnsyncedKeys` (streamer.go 615-628): call
`SetNextBatch(f, t)`, propagate its error; otherwise store the
returned hashes as `currentBatch` and enqueue the `UnsyncedKeysMsg` at
the handler's priority.  The message literal in the source initialises
only `HandoverProof`, `Hashes`, `From` and `To`; `Stream` and `Key`
keep their zero values `""` and nil, embedded as `[]`. -/
def SendUnsyncedKeys
    (setNextBatch : Nat → Nat →
      Except String (List Nat × Nat × Nat × Option HandoverProofM))
    (s : OutgoingState) (f t : Nat) :
    Except String (OutgoingState × UnsyncedKeysMsgM × Nat) :=
  match setNextBatch f t with
  | Except.error e => Except.error e
  | Except.ok (hashes, fromv, tov, proof) =>
      Except.ok ({ s with currentBatch := hashes },
        { stream := [], key := [], fromv := fromv, tov := tov,
          hashes := hashes, proof := proof },
        s.priority)

/-- C6: evaluation of `SendUnsyncedKeys` at a successful
`SetNextBatch` returning hashes `[5]` and adjusted range `(3, 8)` for
a handler of priority 2: the returned hashes become `currentBatch` and
the message carries `from' = 3`, `to' = 8`, the hashes and the proof
at priority 2, but its `Stream` and `Key` fields are the zero values
`[]` — the claim would require the message to carry the stream name
and key. -/
theorem sendUnsyncedKeys_omits_stream_identity :
    SendUnsyncedKeys (fun f t => Except.ok ([5], f, t + 1, none)) ⟨2, []⟩ 3 7 =
      Except.ok (⟨2, [5]⟩, ⟨[], [], 3, 8, [5], none⟩, 2) := rfl

/-! ### Receive loop (streamer.go 345-358) -/

inductive RcvEv where
  | lookupDone : List Nat → RcvEv
  | assignData : List Nat → List Nat → RcvEv
  | storePut : List Nat → List Nat → RcvEv
  | closePending : List Nat → RcvEv
deriving DecidableEq, Repr

/-- One iteration of `Streamer.processReceivedChunks` (streamer.go
345-358) for a delivery taken from `receiveC` with the given key and
data: the placeholder is looked up via `dbAccess.get`; on failure the
loop continues with no further action; otherwise the chunk's data is
assigned, the chunk is written via the chunk-store put, and the
pending signal is closed — in exactly that statement order. -/
def processReceivedChunk (dbGet : List Nat → Bool) (key sdata : List Nat) :
    List RcvEv :=
  if dbGet key then
    [RcvEv.lookupDone key, RcvEv.assignData key sdata,
      RcvEv.storePut key sdata, RcvEv.closePending key]
  else
    [RcvEv.lookupDone key]

/-- C8: when the delivered key is found, the trace splits as
`pre ++ storePut ++ mid ++ closePending ++ post` with no pending close
anywhere before the store write — the write strictly precedes the
close; on lookup failure nothing is written or closed. -/
theorem receiveLoop_put_before_close (dbGet : List Nat → Bool)
    (key sdata : List Nat) :
    (dbGet key = true →
      ∃ pre mid post, processReceivedChunk dbGet key sdata =
          pre ++ RcvEv.storePut key sdata :: mid ++
            RcvEv.closePending key :: post ∧
        RcvEv.closePending key ∉ pre ∧ RcvEv.closePending key ∉ mid ∧
        pre = [RcvEv.lookupDone key, RcvEv.assignData key sdata]) ∧
    (dbGet key = false →
      processReceivedChunk dbGet key sdata = [RcvEv.lookupDone key] ∧
      RcvEv.storePut key sdata ∉ processReceivedChunk dbGet key sdata ∧
      RcvEv.closePending key ∉ processReceivedChunk dbGet key sdata) := by
  constructor
  · intro h
    refine ⟨[RcvEv.lookupDone key, RcvEv.assignData key sdata], [], [], ?_, ?_, ?_, rfl⟩
    · simp [processReceivedChunk, h]
    · simp
    · simp
  · intro h
    refine ⟨by simp [processReceivedChunk, h], ?_, ?_⟩
    · simp [processReceivedChunk, h]
    · simp [processReceivedChunk, h]

theorem receiveLoop_put_before_close_witness :
    (∃ pre mid post, processReceivedChunk (fun _ => true) [7] [9] =
        pre ++ RcvEv.storePut [7] [9] :: mid ++
          RcvEv.closePending [7] :: post ∧
      RcvEv.closePending [7] ∉ pre ∧ RcvEv.closePending [7] ∉ mid ∧
      pre = [RcvEv.lookupDone [7], RcvEv.assignData [7] [9]]) ∧
    (processReceivedChunk (fun _ => false) [7] [9] = [RcvEv.lookupDone [7]] ∧
      RcvEv.storePut [7] [9] ∉ processReceivedChunk (fun _ => false) [7] [9] ∧
      RcvEv.closePending [7] ∉ processReceivedChunk (fun _ => false) [7] [9]) :=
  ⟨(receiveLoop_put_before_close (fun _ => true) [7] [9]).1 rfl,
    (receiveLoop_put_before_close (fun _ => false) [7] [9]).2 rfl⟩

/-! ### Retrieve-request handling (streamer.go 262-307) -/

structure StoreEntry where
  sdata : Option (List Nat)
  hasPending : Bool
deriving DecidableEq, Repr

/-- Modelled from the spec: `DbAccess.getOrCreateRequest` is repository
code not under `src/`.  Spec §4.5: a present key returns its entry
with `created = false`; an absent key creates a placeholder with a
fresh one-shot pending signal, stores it, and returns
`created = true`. -/
def getOrCreateRequest (st : List (List Nat × StoreEntry)) (key : List Nat) :
    List (List Nat × StoreEntry) × StoreEntry × Bool :=
  match lookupEntry st key with
  | some e => (st, e, false)
  | none => (st ++ [(key, ⟨none, true⟩)], ⟨none, true⟩, true)

/-- Modelled from the spec: the `retrieveRequestStream` name constant
is repository code not under `src/`; its value is irrelevant to the
claims. -/
def retrieveRequestStream : List Nat := [114, 101, 116, 114, 105, 101, 118, 101]

/-- Embeds `StreamerPeer.handleRetrieveRequestMsg` (streamer.go 262-294)
restricted to its store effect and result: `getOrCreateRequest` runs
first and mutates the store; only afterwards is the retrieve-request
outgoing stream looked up, and its failure is returned with the store
change already in place and never undone.  The success continuation
only spawns waiters and channel sends and leaves the store as
`getOrCreateRequest` left it. -/
def handleRetrieveRequestMsg (outgoing : List (List Nat × OutgoingState))
    (st : List (List Nat × StoreEntry)) (key : List Nat) :
    List (List Nat × StoreEntry) × Except String Unit :=
  let r := getOrCreateRequest st key
  match getOutgoingStreamer outgoing retrieveRequestStream with
  | Except.error e => (r.1, Except.error e)
  | Except.ok _ => (r.1, Except.ok ())

/-- C9: when the retrieve-request stream is not registered and the key
is absent from the store, the handler returns the stream-lookup error,
yet the store has already been mutated: it now holds a placeholder
with a fresh pending signal that is not removed — the handler is not
atomic on this error path. -/
theorem retrieveRequest_store_mutated_on_error
    (outgoing : List (List Nat × OutgoingState))
    (st : List (List Nat × StoreEntry)) (key : List Nat)
    (hstream : lookupEntry outgoing retrieveRequestStream = none)
    (hkey : lookupEntry st key = none) :
    handleRetrieveRequestMsg outgoing st key =
      (st ++ [(key, ⟨none, true⟩)], Except.error "stream not provided") ∧
    st ++ [(key, ⟨none, true⟩)] ≠ st := by
  constructor
  · simp [handleRetrieveRequestMsg, getOrCreateRequest, getOutgoingStreamer,
      hstream, hkey]
  · intro h
    have hlen := congrArg List.length h
    simp at hlen

theorem retrieveRequest_store_mutated_on_error_witness :
    handleRetrieveRequestMsg [] [] [7] =
      ([([7], ⟨none, true⟩)], Except.error "stream not provided") ∧
    [] ++ [([7], (⟨none, true⟩ : StoreEntry))] ≠ [] :=
  retrieveRequest_store_mutated_on_error [] [] [7] rfl rfl

/-- Embeds `Overlay.EachConn` as consumed by `Streamer.Retrieve` (streamer.go
297-307): conns are visited in proximity order for as long as the
callback returns true; returns the visited conns. -/
def eachConnVisited {α : Type} (conns : List α) (f : α → Bool) : List α :=
  match conns with
  | [] => []
  | c :: rest => if f c then c :: eachConnVisited rest f else [c]

/-- Embeds `Streamer.Retrieve` (streamer.go 297-307): each conn is
represented by the `Except` result its `SendPriority` (priority-queue
push of `RetrieveRequestMsg{key}` at `Top`) would return; the callback
discards that result and returns false, and `Retrieve` returns nil
unconditionally.  The first component records the attempted sends as
`(key, priority)` pairs. -/
def Retrieve (conns : List (Except String Unit)) (key : List Nat) :
    List (List Nat × Nat) × Except String Unit :=
  ((eachConnVisited conns (fun _ => false)).map (fun _ => (key, Top)),
    Except.ok ())

/-- C10: `Retrieve` reports success unconditionally — for every conn
list, including the empty overlay (where no `RetrieveRequestMsg` is
sent at all) and a single conn whose priority-queue push fails, the
result is nil and the push failure is invisible to the caller. -/
theorem retrieve_always_ok (conns : List (Except String Unit)) (key : List Nat) :
    (Retrieve conns key).2 = Except.ok () ∧
    (Retrieve [] key).1 = [] ∧
    Retrieve [Except.error "pq full"] key = ([(key, Top)], Except.ok ()) :=
  ⟨rfl, rfl, rfl⟩

end Streamer
